import Mathlib

/-!
Verification of the atoma node-identity range allocator.

The data model (`NodeIdRange`, `ModelEchelonIdRanges`, `AssignedNodeId`,
`ModelEchelon`, `ModelEchelonGroupV1`, the capacity constants, and the
program's single entrypoint) is embedded from
`solana/programs/atoma/src/lib.rs`.  The repository ships only the data
declarations of the allocator on chain; the operations (insert, remove with
split/swap, merge, sampling, ticket resolution, echelon administration) are
described by the specification and by the doc comments of the source, so they
are modelled from the spec as marked on each definition.

Machine integers (`u32` node identifiers, `u64` lengths and slots) are
embedded as `Nat`, with overflow/underflow checks made explicit where the
operations need them.
-/

/-- Determines how many ranges of node IDs can be stored in an echelon
(`MAX_ECHELON_RANGES` in the source). -/
def MAX_ECHELON_RANGES : Nat := 64

/-- Number of echelons per one group (`MAX_ECHELONS_PER_MODEL_GROUP_V1`
in the source). -/
def MAX_ECHELONS_PER_MODEL_GROUP_V1 : Nat := 16

/-- Exclusive upper bound of the `u32` node identifier space. -/
def U32_BOUND : Nat := 4294967296

/-- Inclusive range of node IDs.  If both IDs equal 0 then this range is
empty (the unused sentinel). -/
structure NodeIdRange where
  low : Nat
  high : Nat
deriving DecidableEq, Repr

/-- The sentinel `(0, 0)` marking an unused slot in the fixed range array. -/
def NodeIdRange.sentinel : NodeIdRange := ⟨0, 0⟩

/-- A range is empty (unused) exactly when both bounds are 0. -/
def NodeIdRange.isEmptyRange (r : NodeIdRange) : Bool :=
  r.low == 0 && r.high == 0

/-- Membership of an identifier in a range: the range is non-empty and
`low ≤ x ≤ high`. -/
def NodeIdRange.containsId (r : NodeIdRange) (x : Nat) : Bool :=
  !r.isEmptyRange && decide (r.low ≤ x) && decide (x ≤ r.high)

/-- Number of identifiers covered by one range: `high - low + 1` for a
non-empty range, 0 for the sentinel. -/
def NodeIdRange.size (r : NodeIdRange) : Nat :=
  if r.isEmptyRange then 0 else r.high - r.low + 1

/-- Self repairing data structure that contains ranges of node IDs
(`ModelEchelonIdRanges` in the source): a running total `len` plus a fixed
array of `MAX_ECHELON_RANGES` ranges, modelled as a list whose length is
part of the well-formedness invariant. -/
structure ModelEchelonIdRanges where
  len : Nat
  ranges : List NodeIdRange
deriving DecidableEq, Repr

/-- Sum of `(high - low + 1)` over the non-empty ranges of the array. -/
def sumSizes (rs : List NodeIdRange) : Nat :=
  (rs.map NodeIdRange.size).sum

/-- The freshly created range set: 64 sentinel slots, `len = 0`. -/
def initRanges : ModelEchelonIdRanges :=
  { len := 0, ranges := List.replicate MAX_ECHELON_RANGES NodeIdRange.sentinel }

/-- Errors of the allocator, from the spec's error taxonomy. -/
inductive AllocError where
  | RangeSetExhausted
  | RangeSetFull
  | IdentifierNotFound
  | EchelonCapacityExceeded
  | InsufficientCapacity
  | InvalidIdentifier
  | ConcurrentModification
deriving DecidableEq, Repr

/-- First index of the list satisfying the boolean predicate. -/
def findIdxB (p : α → Bool) : List α → Option Nat
  | [] => none
  | a :: l => if p a then some 0 else (findIdxB p l).map (· + 1)

/-- Whether identifier `x` is already covered by some range of the set. -/
def usedId (s : ModelEchelonIdRanges) (x : Nat) : Bool :=
  s.ranges.any (fun r => r.containsId x)

/-- Largest `high` bound appearing in the array (sentinels contribute 0). -/
def maxHigh (rs : List NodeIdRange) : Nat :=
  (rs.map NodeIdRange.high).foldr max 0

example : initRanges.len = 0 := rfl

/-- Modelled from the spec: insertion (subscribing a new node), §4.1 of the
spec; the on-chain source ships only the data structure, not the operation.
The designated first range is slot 0.  The new identifier is
`first.low - 1` when that does not underflow below 1 and is unused, else
`first.high + 1` when that stays inside the `u32` space and is unused;
otherwise the growth policy is exhausted (`RangeSetExhausted`).  The spec
leaves the case of an empty first slot open; following its initial scenario
(the set starts at `[1,1]`) we assign one more than the largest live `high`
bound, which is 1 on an empty set. -/
def insertNode (s : ModelEchelonIdRanges) :
    Except AllocError (ModelEchelonIdRanges × Nat) :=
  match s.ranges[0]? with
  | none => .error .RangeSetExhausted
  | some first =>
    if first.isEmptyRange then
      let fresh := maxHigh s.ranges + 1
      if fresh < U32_BOUND then
        .ok ({ len := s.len + 1, ranges := s.ranges.set 0 ⟨fresh, fresh⟩ }, fresh)
      else .error .RangeSetExhausted
    else
      let down := first.low - 1
      if 1 ≤ down ∧ usedId s down = false then
        .ok ({ len := s.len + 1, ranges := s.ranges.set 0 ⟨down, first.high⟩ }, down)
      else
        let up := first.high + 1
        if up < U32_BOUND ∧ usedId s up = false then
          .ok ({ len := s.len + 1, ranges := s.ranges.set 0 ⟨first.low, up⟩ }, up)
        else .error .RangeSetExhausted

/-- Shrink a range by one unit from the end holding `x` (`x` must be `low`
or `high`); a singleton becomes the empty sentinel, freeing its slot. -/
def shrinkAt (r : NodeIdRange) (x : Nat) : NodeIdRange :=
  if r.low = r.high then NodeIdRange.sentinel
  else if x = r.low then ⟨r.low + 1, r.high⟩
  else ⟨r.low, r.high - 1⟩

example : shrinkAt ⟨3, 3⟩ 3 = NodeIdRange.sentinel := rfl
example : shrinkAt ⟨3, 9⟩ 3 = ⟨4, 9⟩ := rfl
example : shrinkAt ⟨3, 9⟩ 9 = ⟨3, 8⟩ := rfl

/-- The slots of the array tagged with their indices, starting at `k`. -/
def idxed : List NodeIdRange → Nat → List (Nat × NodeIdRange)
  | [], _ => []
  | r :: t, k => (k, r) :: idxed t (k + 1)

/-- The non-empty slots of the array, with their indices. -/
def liveSlots (rs : List NodeIdRange) : List (Nat × NodeIdRange) :=
  (idxed rs 0).filter (fun p => !p.2.isEmptyRange)

/-- All pairs drawn from two lists, in order. -/
def pairProd {A : Type} (l m : List A) : List (A × A) :=
  l.foldr (fun p acc => (m.map (fun q => (p, q))) ++ acc) []

/-- Two distinct slots hold adjacent ranges: the first ends right before the
second starts (`high + 1 = low`), so the two can be merged into one slot. -/
def adjCheck (p q : Nat × NodeIdRange) : Bool :=
  decide (p.1 ≠ q.1) && decide (p.2.high + 1 = q.2.low)

/-- First adjacent pair of the candidate list. -/
def findAdjPair :
    List ((Nat × NodeIdRange) × (Nat × NodeIdRange)) →
      Option ((Nat × NodeIdRange) × (Nat × NodeIdRange))
  | [] => none
  | pq :: rest => if adjCheck pq.1 pq.2 then some pq else findAdjPair rest

/-- Modelled from the spec: one opportunistic merge step (§4.1 step 4); the
source only documents the repair in prose.  Find two adjacent non-empty
ranges `[a,b]` and `[b+1,c]`, combine them into `[a,c]` in the first slot
and free the second slot; `none` when no two slots are adjacent. -/
def mergeStep (s : ModelEchelonIdRanges) : Option ModelEchelonIdRanges :=
  match findAdjPair (pairProd (liveSlots s.ranges) (liveSlots s.ranges)) with
  | none => none
  | some ((i, ri), (j, rj)) =>
    some { len := s.len,
           ranges := (s.ranges.set i ⟨ri.low, rj.high⟩).set j NodeIdRange.sentinel }

/-- Greedy merging: repeat `mergeStep` until no adjacency is left or the
fuel runs out (64 steps always suffice: each step frees one slot). -/
def mergeAll : Nat → ModelEchelonIdRanges → ModelEchelonIdRanges
  | 0, s => s
  | fuel + 1, s =>
    match mergeStep s with
    | none => s
    | some s' => mergeAll fuel s'

/-- Modelled from the spec: removal (unsubscribing the node holding
identifier `x`), §4.1 of the spec; the on-chain source ships only the data
structure.  Use of identifier 0 fails with `InvalidIdentifier`; an
identifier in no range fails with `IdentifierNotFound`.  A boundary
identifier shrinks its range by one unit; an interior identifier splits its
range into two when a free slot exists; with no free slot the swap fallback
reclaims the low boundary of the first other range instead (the boundary
node is reassigned to `x` at the record level; the reassignment cooldown
lives in the node-record layer and is not modelled on the range set, so the
modelled swap always finds its candidate).  Every successful removal ends
with the opportunistic merge pass. -/
def removeNode (s : ModelEchelonIdRanges) (x : Nat) :
    Except AllocError ModelEchelonIdRanges :=
  if x = 0 then .error .InvalidIdentifier
  else
    match findIdxB (fun r => r.containsId x) s.ranges with
    | none => .error .IdentifierNotFound
    | some i =>
      let r := s.ranges.getD i NodeIdRange.sentinel
      let afterCore : ModelEchelonIdRanges :=
        if x = r.low ∨ x = r.high then
          { len := s.len - 1, ranges := s.ranges.set i (shrinkAt r x) }
        else
          match findIdxB NodeIdRange.isEmptyRange s.ranges with
          | some j =>
            { len := s.len - 1,
              ranges := (s.ranges.set i ⟨r.low, x - 1⟩).set j ⟨x + 1, r.high⟩ }
          | none =>
            let j := if i = 0 then 1 else 0
            let rj := s.ranges.getD j NodeIdRange.sentinel
            { len := s.len - 1, ranges := s.ranges.set j (shrinkAt rj rj.low) }
      .ok (mergeAll MAX_ECHELON_RANGES afterCore)

/-- States of one echelon's range set reachable from the fresh set by any
sequence of (successful) insert and remove operations. -/
inductive ReachableRanges : ModelEchelonIdRanges → Prop where
  | init : ReachableRanges initRanges
  | insStep {s s' : ModelEchelonIdRanges} {id : Nat} :
      ReachableRanges s → insertNode s = .ok (s', id) → ReachableRanges s'
  | rmStep {s s' : ModelEchelonIdRanges} {x : Nat} :
      ReachableRanges s → removeNode s x = .ok s' → ReachableRanges s'

/-- Slot `i` of a range array, with the sentinel for out-of-bounds reads. -/
def rget (rs : List NodeIdRange) (i : Nat) : NodeIdRange :=
  rs.getD i NodeIdRange.sentinel

/-- Well-formedness of a range set: the fixed array has exactly
`MAX_ECHELON_RANGES` slots, every non-empty range satisfies
`1 ≤ low ≤ high`, no identifier lies in two distinct slots, and `len`
equals the sum of the sizes of the non-empty ranges. -/
structure RangesWf (s : ModelEchelonIdRanges) : Prop where
  hlen : s.ranges.length = MAX_ECHELON_RANGES
  hwf : ∀ i, (rget s.ranges i).isEmptyRange = false →
    1 ≤ (rget s.ranges i).low ∧ (rget s.ranges i).low ≤ (rget s.ranges i).high
  hdisj : ∀ i j, i ≠ j → ∀ x, (rget s.ranges i).containsId x = true →
    (rget s.ranges j).containsId x = true → False
  hsum : s.len = sumSizes s.ranges

theorem containsId_iff (r : NodeIdRange) (x : Nat) :
    r.containsId x = true ↔ ¬(r.low = 0 ∧ r.high = 0) ∧ r.low ≤ x ∧ x ≤ r.high := by
  simp [NodeIdRange.containsId, NodeIdRange.isEmptyRange, and_assoc]
  intros
  tauto

theorem isEmptyRange_iff (r : NodeIdRange) :
    r.isEmptyRange = true ↔ r.low = 0 ∧ r.high = 0 := by
  simp [NodeIdRange.isEmptyRange]

theorem isEmptyRange_false_iff (r : NodeIdRange) :
    r.isEmptyRange = false ↔ ¬(r.low = 0 ∧ r.high = 0) := by
  rw [← Bool.not_eq_true, isEmptyRange_iff]

theorem containsId_sentinel (x : Nat) : NodeIdRange.sentinel.containsId x = false := rfl

theorem size_eq (r : NodeIdRange) :
    r.size = if r.low = 0 ∧ r.high = 0 then 0 else r.high - r.low + 1 := by
  unfold NodeIdRange.size
  by_cases h : r.low = 0 ∧ r.high = 0
  · rw [if_pos ((isEmptyRange_iff r).mpr h), if_pos h]
  · rw [if_neg (by rw [isEmptyRange_iff]; exact h), if_neg h]

theorem rget_set_same (rs : List NodeIdRange) (i : Nat) (r : NodeIdRange)
    (h : i < rs.length) : rget (rs.set i r) i = r := by
  unfold rget
  rw [List.getD_eq_getElem _ _ (by simpa using h)]
  exact List.getElem_set_self (by simpa using h)

theorem rget_set_other (rs : List NodeIdRange) (i j : Nat) (r : NodeIdRange)
    (h : i ≠ j) : rget (rs.set i r) j = rget rs j := by
  induction rs generalizing i j with
  | nil => simp [List.set]
  | cons a t ih =>
    cases i with
    | zero =>
      cases j with
      | zero => exact absurd rfl h
      | succ m => simp [rget, List.set]
    | succ n =>
      cases j with
      | zero => simp [rget, List.set]
      | succ m => simpa [rget, List.set] using ih n m (by omega)

theorem rget_mem (rs : List NodeIdRange) (i : Nat) (h : i < rs.length) :
    rget rs i ∈ rs := by
  unfold rget
  rw [List.getD_eq_getElem _ _ h]
  exact List.getElem_mem h

theorem rget_oob (rs : List NodeIdRange) (i : Nat) (h : rs.length ≤ i) :
    rget rs i = NodeIdRange.sentinel :=
  List.getD_eq_default _ _ h

theorem sumSizes_set (rs : List NodeIdRange) (i : Nat) (r : NodeIdRange)
    (h : i < rs.length) :
    sumSizes (rs.set i r) + (rget rs i).size = sumSizes rs + r.size := by
  induction rs generalizing i with
  | nil => simp at h
  | cons a t ih =>
    cases i with
    | zero =>
      simp [sumSizes, rget, List.set]
      try omega
    | succ n =>
      have hn : n < t.length := by simpa using h
      have := ih n hn
      simp [sumSizes, rget, List.set] at this ⊢
      omega

theorem size_le_sumSizes (rs : List NodeIdRange) (i : Nat) (h : i < rs.length) :
    (rget rs i).size ≤ sumSizes rs := by
  induction rs generalizing i with
  | nil => simp at h
  | cons a t ih =>
    cases i with
    | zero =>
      simp [sumSizes, rget]
      try omega
    | succ n =>
      have hn : n < t.length := by simpa using h
      have := ih n hn
      simp [sumSizes, rget] at this ⊢
      omega

theorem findIdxB_some {α : Type} (p : α → Bool) (l : List α) (i : Nat) (d : α)
    (h : findIdxB p l = some i) : i < l.length ∧ p (l.getD i d) = true := by
  induction l generalizing i with
  | nil => simp [findIdxB] at h
  | cons a t ih =>
    by_cases hp : p a = true
    · simp [findIdxB, hp] at h
      subst h
      simpa using hp
    · simp [findIdxB, hp] at h
      match ht : findIdxB p t with
      | none => rw [ht] at h; simp at h
      | some i0 =>
        rw [ht] at h
        simp at h
        obtain ⟨hlt, hpd⟩ := ih i0 ht
        subst h
        constructor
        · simpa using hlt
        · simpa using hpd

theorem findIdxB_none {α : Type} (p : α → Bool) (l : List α) (d : α)
    (h : findIdxB p l = none) : ∀ i, i < l.length → p (l.getD i d) = false := by
  induction l with
  | nil => simp
  | cons a t ih =>
    by_cases hp : p a = true
    · simp [findIdxB, hp] at h
    · simp [findIdxB, hp] at h
      intro i hi
      cases i with
      | zero => simpa using hp
      | succ n =>
        exact ih h n (by simpa using hi)

theorem usedId_false (s : ModelEchelonIdRanges) (x : Nat)
    (h : usedId s x = false) : ∀ i, (rget s.ranges i).containsId x = false := by
  intro i
  by_cases hi : i < s.ranges.length
  · have hm := rget_mem s.ranges i hi
    unfold usedId at h
    rw [List.any_eq_false] at h
    simpa using h _ hm
  · rw [rget_oob _ _ (by omega)]
    exact containsId_sentinel x

theorem insertNode_ok_cases (s s' : ModelEchelonIdRanges) (id : Nat)
    (h : insertNode s = .ok (s', id)) :
    ∃ first, s.ranges[0]? = some first ∧
      ((first.isEmptyRange = true ∧ id = maxHigh s.ranges + 1 ∧ id < U32_BOUND ∧
          s' = { len := s.len + 1, ranges := s.ranges.set 0 ⟨id, id⟩ }) ∨
        (first.isEmptyRange = false ∧ id = first.low - 1 ∧ 1 ≤ id ∧
          usedId s id = false ∧
          s' = { len := s.len + 1, ranges := s.ranges.set 0 ⟨id, first.high⟩ }) ∨
        (first.isEmptyRange = false ∧ id = first.high + 1 ∧ id < U32_BOUND ∧
          usedId s id = false ∧
          ¬(1 ≤ first.low - 1 ∧ usedId s (first.low - 1) = false) ∧
          s' = { len := s.len + 1, ranges := s.ranges.set 0 ⟨first.low, id⟩ })) := by
  unfold insertNode at h
  cases hm : s.ranges[0]? with
  | none => rw [hm] at h; exact absurd h (by simp)
  | some first =>
    rw [hm] at h
    dsimp only at h
    refine ⟨first, rfl, ?_⟩
    by_cases hemp : first.isEmptyRange = true
    · rw [if_pos hemp] at h
      by_cases hb : maxHigh s.ranges + 1 < U32_BOUND
      · rw [if_pos hb] at h
        simp at h
        obtain ⟨hs', hid⟩ := h
        subst hid
        exact Or.inl ⟨hemp, rfl, hb, hs'.symm⟩
      · rw [if_neg hb] at h
        exact absurd h (by simp)
    · rw [if_neg hemp] at h
      rw [Bool.not_eq_true] at hemp
      by_cases hdown : 1 ≤ first.low - 1 ∧ usedId s (first.low - 1) = false
      · rw [if_pos hdown] at h
        simp at h
        obtain ⟨hs', hid⟩ := h
        subst hid
        exact Or.inr (Or.inl ⟨hemp, rfl, hdown.1, hdown.2, hs'.symm⟩)
      · rw [if_neg hdown] at h
        by_cases hup : first.high + 1 < U32_BOUND ∧ usedId s (first.high + 1) = false
        · rw [if_pos hup] at h
          simp at h
          obtain ⟨hs', hid⟩ := h
          subst hid
          exact Or.inr (Or.inr ⟨hemp, rfl, hup.1, hup.2, hdown, hs'.symm⟩)
        · rw [if_neg hup] at h
          exact absurd h (by simp)

theorem removeNode_ok_cases (s s' : ModelEchelonIdRanges) (x : Nat)
    (h : removeNode s x = .ok s') :
    x ≠ 0 ∧ ∃ i, findIdxB (fun r => r.containsId x) s.ranges = some i ∧
      ∃ core, s' = mergeAll MAX_ECHELON_RANGES core ∧
        (((x = (rget s.ranges i).low ∨ x = (rget s.ranges i).high) ∧
            core = { len := s.len - 1,
                     ranges := s.ranges.set i (shrinkAt (rget s.ranges i) x) }) ∨
          (¬(x = (rget s.ranges i).low ∨ x = (rget s.ranges i).high) ∧
            ∃ j, findIdxB NodeIdRange.isEmptyRange s.ranges = some j ∧
              core = { len := s.len - 1,
                       ranges := (s.ranges.set i ⟨(rget s.ranges i).low, x - 1⟩).set j
                         ⟨x + 1, (rget s.ranges i).high⟩ }) ∨
          (¬(x = (rget s.ranges i).low ∨ x = (rget s.ranges i).high) ∧
            findIdxB NodeIdRange.isEmptyRange s.ranges = none ∧
            core = { len := s.len - 1,
                     ranges := s.ranges.set (if i = 0 then 1 else 0)
                       (shrinkAt (rget s.ranges (if i = 0 then 1 else 0))
                         (rget s.ranges (if i = 0 then 1 else 0)).low) })) := by
  unfold removeNode at h
  by_cases hx : x = 0
  · rw [if_pos hx] at h; exact absurd h (by simp)
  · rw [if_neg hx] at h
    refine ⟨hx, ?_⟩
    cases hf : findIdxB (fun r => r.containsId x) s.ranges with
    | none => rw [hf] at h; exact absurd h (by simp)
    | some i =>
      rw [hf] at h
      dsimp only at h
      simp only [show ∀ k, s.ranges.getD k NodeIdRange.sentinel = rget s.ranges k
        from fun k => rfl] at h
      refine ⟨i, rfl, ?_⟩
      by_cases hb : x = (rget s.ranges i).low ∨ x = (rget s.ranges i).high
      · rw [if_pos hb] at h
        simp at h
        exact ⟨_, h.symm, Or.inl ⟨hb, rfl⟩⟩
      · rw [if_neg hb] at h
        cases hj : findIdxB NodeIdRange.isEmptyRange s.ranges with
        | some j =>
          rw [hj] at h
          simp at h
          exact ⟨_, h.symm, Or.inr (Or.inl ⟨hb, j, rfl, rfl⟩)⟩
        | none =>
          rw [hj] at h
          simp at h
          exact ⟨_, h.symm, Or.inr (Or.inr ⟨hb, rfl, rfl⟩)⟩

theorem mem_high_le_maxHigh (rs : List NodeIdRange) (r : NodeIdRange)
    (h : r ∈ rs) : r.high ≤ maxHigh rs := by
  induction rs with
  | nil => simp at h
  | cons a t ih =>
    rcases List.mem_cons.mp h with h1 | h2
    · subst h1
      simp [maxHigh]
      try omega
    · have := ih h2
      simp [maxHigh] at this ⊢
      omega

theorem containsId_le_maxHigh (rs : List NodeIdRange) (j x : Nat)
    (h : (rget rs j).containsId x = true) : x ≤ maxHigh rs := by
  by_cases hj : j < rs.length
  · have hmem := rget_mem rs j hj
    have := mem_high_le_maxHigh rs _ hmem
    rw [containsId_iff] at h
    omega
  · rw [rget_oob _ _ (by omega)] at h
    rw [containsId_sentinel] at h
    exact absurd h (by simp)

theorem set0_wf (s : ModelEchelonIdRanges) (hw : RangesWf s) (newR : NodeIdRange)
    (newId : Nat)
    (hgrow : ∀ x, newR.containsId x = true →
      x = newId ∨ (rget s.ranges 0).containsId x = true)
    (hfree : ∀ k, (rget s.ranges k).containsId newId = false)
    (hwfR : newR.isEmptyRange = false → 1 ≤ newR.low ∧ newR.low ≤ newR.high)
    (hsize : newR.size = (rget s.ranges 0).size + 1) :
    RangesWf { len := s.len + 1, ranges := s.ranges.set 0 newR } := by
  obtain ⟨hlen, hwf, hdisj, hsum⟩ := hw
  have h0 : 0 < s.ranges.length := by
    rw [hlen]; norm_num [MAX_ECHELON_RANGES]
  have hsame : rget (s.ranges.set 0 newR) 0 = newR := rget_set_same _ _ _ h0
  have hother : ∀ k, k ≠ 0 → rget (s.ranges.set 0 newR) k = rget s.ranges k :=
    fun k hk => rget_set_other _ _ _ _ (fun he => hk he.symm)
  refine ⟨?_, ?_, ?_, ?_⟩
  · simpa using hlen
  · intro i
    by_cases hi : i = 0
    · subst hi; rw [hsame]; exact hwfR
    · rw [hother i hi]; exact hwf i
  · intro i j hij x hxi hxj
    by_cases hi : i = 0
    · subst hi
      rw [hsame] at hxi
      rw [hother j (fun he => hij he.symm)] at hxj
      rcases hgrow x hxi with rfl | hold
      · rw [hfree j] at hxj; exact absurd hxj (by simp)
      · exact hdisj 0 j hij x hold hxj
    · by_cases hj : j = 0
      · subst hj
        rw [hsame] at hxj
        rw [hother i hi] at hxi
        rcases hgrow x hxj with rfl | hold
        · rw [hfree i] at hxi; exact absurd hxi (by simp)
        · exact hdisj i 0 hij x hxi hold
      · rw [hother i hi] at hxi
        rw [hother j hj] at hxj
        exact hdisj i j hij x hxi hxj
  · have := sumSizes_set s.ranges 0 newR h0
    simp only
    omega

theorem insertNode_wf {s s' : ModelEchelonIdRanges} {id : Nat}
    (hw : RangesWf s) (h : insertNode s = .ok (s', id)) : RangesWf s' := by
  obtain ⟨first, hm, hc⟩ := insertNode_ok_cases s s' id h
  have h0 : 0 < s.ranges.length := by
    rw [hw.hlen]; norm_num [MAX_ECHELON_RANGES]
  have hfst : rget s.ranges 0 = first := by
    unfold rget
    rw [List.getD_eq_getElem _ _ h0]
    obtain ⟨h', he⟩ := List.getElem?_eq_some.mp hm
    exact he
  rcases hc with ⟨hemp, hid, hbound, hs'⟩ | ⟨hemp, hid, hge, hun, hs'⟩ |
      ⟨hemp, hid, hbound, hun, hnd, hs'⟩
  · subst hs'
    refine set0_wf s hw ⟨id, id⟩ id ?_ ?_ ?_ ?_
    · intro x hx
      rw [containsId_iff] at hx
      dsimp only at hx
      left; omega
    · intro k
      by_contra hk
      rw [Bool.not_eq_false] at hk
      have := containsId_le_maxHigh s.ranges k id hk
      omega
    · intro _
      dsimp only
      constructor <;> omega
    · rw [hfst]
      rw [isEmptyRange_iff] at hemp
      rw [size_eq, size_eq]
      dsimp only
      rw [if_neg (by omega), if_pos hemp]
      omega
  · subst hs'
    have hww := hw.hwf 0
    rw [hfst] at hww
    obtain ⟨hl1, hlh⟩ := hww hemp
    have hun' := usedId_false s id hun
    refine set0_wf s hw ⟨id, first.high⟩ id ?_ hun' ?_ ?_
    · intro x hx
      rw [containsId_iff] at hx
      dsimp only at hx
      rw [hfst, containsId_iff]
      rw [isEmptyRange_false_iff] at hemp
      by_cases hxe : x = id
      · left; exact hxe
      · right; refine ⟨hemp, by omega, by omega⟩
    · intro _
      dsimp only
      constructor <;> omega
    · rw [hfst]
      rw [isEmptyRange_false_iff] at hemp
      rw [size_eq, size_eq]
      dsimp only
      rw [if_neg (by omega), if_neg hemp]
      omega
  · subst hs'
    have hww := hw.hwf 0
    rw [hfst] at hww
    obtain ⟨hl1, hlh⟩ := hww hemp
    have hun' := usedId_false s id hun
    refine set0_wf s hw ⟨first.low, id⟩ id ?_ hun' ?_ ?_
    · intro x hx
      rw [containsId_iff] at hx
      dsimp only at hx
      rw [hfst, containsId_iff]
      rw [isEmptyRange_false_iff] at hemp
      by_cases hxe : x = id
      · left; exact hxe
      · right; refine ⟨hemp, by omega, by omega⟩
    · intro _
      dsimp only
      constructor <;> omega
    · rw [hfst]
      rw [isEmptyRange_false_iff] at hemp
      rw [size_eq, size_eq]
      dsimp only
      rw [if_neg (by omega), if_neg hemp]
      omega

theorem containsId_nonempty (r : NodeIdRange) (x : Nat)
    (h : r.containsId x = true) : r.isEmptyRange = false := by
  rw [containsId_iff] at h
  rw [isEmptyRange_false_iff]
  exact h.1

theorem size_zero_of_empty (r : NodeIdRange) (h : r.isEmptyRange = true) :
    r.size = 0 := by
  rw [size_eq, if_pos ((isEmptyRange_iff r).mp h)]

theorem size_pos_of_nonempty (r : NodeIdRange) (h : r.isEmptyRange = false) :
    1 ≤ r.size := by
  rw [size_eq, if_neg ((isEmptyRange_false_iff r).mp h)]
  omega

theorem shrinkAt_subset (r : NodeIdRange) (y z : Nat)
    (h : (shrinkAt r y).containsId z = true) : r.containsId z = true := by
  unfold shrinkAt at h
  by_cases h1 : r.low = r.high
  · rw [if_pos h1, containsId_sentinel] at h
    exact absurd h (by simp)
  · rw [if_neg h1] at h
    by_cases h2 : y = r.low
    · rw [if_pos h2, containsId_iff] at h
      dsimp only at h
      rw [containsId_iff]
      omega
    · rw [if_neg h2, containsId_iff] at h
      dsimp only at h
      rw [containsId_iff]
      omega

theorem shrinkAt_wfR (r : NodeIdRange) (y : Nat) (hl : 1 ≤ r.low)
    (hlh : r.low ≤ r.high) : (shrinkAt r y).isEmptyRange = false →
    1 ≤ (shrinkAt r y).low ∧ (shrinkAt r y).low ≤ (shrinkAt r y).high := by
  unfold shrinkAt
  by_cases h1 : r.low = r.high
  · rw [if_pos h1]
    intro hc
    simp [NodeIdRange.sentinel, NodeIdRange.isEmptyRange] at hc
  · rw [if_neg h1]
    by_cases h2 : y = r.low
    · rw [if_pos h2]
      intro _
      dsimp only
      constructor <;> omega
    · rw [if_neg h2]
      intro _
      dsimp only
      constructor <;> omega

theorem shrinkAt_size (r : NodeIdRange) (y : Nat) (hl : 1 ≤ r.low)
    (hlh : r.low ≤ r.high) : (shrinkAt r y).size + 1 = r.size := by
  unfold shrinkAt
  by_cases h1 : r.low = r.high
  · rw [if_pos h1, size_eq, size_eq]
    rw [if_pos ⟨rfl, rfl⟩, if_neg (by omega)]
    omega
  · rw [if_neg h1]
    by_cases h2 : y = r.low
    · rw [if_pos h2, size_eq, size_eq]
      dsimp only
      rw [if_neg (by omega), if_neg (by omega)]
      omega
    · rw [if_neg h2, size_eq, size_eq]
      dsimp only
      rw [if_neg (by omega), if_neg (by omega)]
      omega

theorem shrink_wf (s : ModelEchelonIdRanges) (hw : RangesWf s) (k y : Nat)
    (hk : k < s.ranges.length)
    (hne : (rget s.ranges k).isEmptyRange = false) :
    RangesWf { len := s.len - 1,
               ranges := s.ranges.set k (shrinkAt (rget s.ranges k) y) } := by
  obtain ⟨hlen, hwf, hdisj, hsum⟩ := hw
  obtain ⟨hl, hlh⟩ := hwf k hne
  have hsame := rget_set_same s.ranges k (shrinkAt (rget s.ranges k) y) hk
  have hother : ∀ m, m ≠ k →
      rget (s.ranges.set k (shrinkAt (rget s.ranges k) y)) m = rget s.ranges m :=
    fun m hm => rget_set_other _ _ _ _ (fun he => hm he.symm)
  refine ⟨by simpa using hlen, ?_, ?_, ?_⟩
  · intro i
    by_cases hik : i = k
    · subst hik
      rw [hsame]
      exact shrinkAt_wfR _ _ hl hlh
    · rw [hother i hik]
      exact hwf i
  · intro i j hij x hxi hxj
    by_cases hik : i = k
    · subst hik
      rw [hsame] at hxi
      rw [hother j (fun he => hij he.symm)] at hxj
      exact hdisj i j hij x (shrinkAt_subset _ _ _ hxi) hxj
    · by_cases hjk : j = k
      · subst hjk
        rw [hsame] at hxj
        rw [hother i hik] at hxi
        exact hdisj i j hij x hxi (shrinkAt_subset _ _ _ hxj)
      · rw [hother i hik] at hxi
        rw [hother j hjk] at hxj
        exact hdisj i j hij x hxi hxj
  · have hset := sumSizes_set s.ranges k (shrinkAt (rget s.ranges k) y) hk
    have hsz := shrinkAt_size (rget s.ranges k) y hl hlh
    have hle := size_le_sumSizes s.ranges k hk
    have hpos := size_pos_of_nonempty _ hne
    simp only
    omega

theorem split_wf (s : ModelEchelonIdRanges) (hw : RangesWf s) (i j x : Nat)
    (hi : i < s.ranges.length) (hj : j < s.ranges.length)
    (hxi : (rget s.ranges i).containsId x = true)
    (hnb : ¬(x = (rget s.ranges i).low ∨ x = (rget s.ranges i).high))
    (hjemp : (rget s.ranges j).isEmptyRange = true) :
    RangesWf { len := s.len - 1,
               ranges := (s.ranges.set i ⟨(rget s.ranges i).low, x - 1⟩).set j
                 ⟨x + 1, (rget s.ranges i).high⟩ } := by
  obtain ⟨hlen, hwf, hdisj, hsum⟩ := hw
  have hnei : (rget s.ranges i).isEmptyRange = false := containsId_nonempty _ _ hxi
  have hij : i ≠ j := by
    intro he
    rw [he, hjemp] at hnei
    exact absurd hnei (by simp)
  obtain ⟨hl, hlh⟩ := hwf i hnei
  have hxr := (containsId_iff _ _).mp hxi
  have hlx : (rget s.ranges i).low < x := by
    rcases Nat.lt_or_ge (rget s.ranges i).low x with h | h
    · exact h
    · exact absurd (Or.inl (by omega)) hnb
  have hxh : x < (rget s.ranges i).high := by
    rcases Nat.lt_or_ge x (rget s.ranges i).high with h | h
    · exact h
    · exact absurd (Or.inr (by omega)) hnb
  have hgj : rget ((s.ranges.set i ⟨(rget s.ranges i).low, x - 1⟩).set j
      ⟨x + 1, (rget s.ranges i).high⟩) j = ⟨x + 1, (rget s.ranges i).high⟩ :=
    rget_set_same _ _ _ (by simpa using hj)
  have hgi : rget ((s.ranges.set i ⟨(rget s.ranges i).low, x - 1⟩).set j
      ⟨x + 1, (rget s.ranges i).high⟩) i = ⟨(rget s.ranges i).low, x - 1⟩ := by
    rw [rget_set_other _ _ _ _ (fun he => hij he.symm)]
    exact rget_set_same _ _ _ hi
  have hgm : ∀ m, m ≠ i → m ≠ j →
      rget ((s.ranges.set i ⟨(rget s.ranges i).low, x - 1⟩).set j
        ⟨x + 1, (rget s.ranges i).high⟩) m = rget s.ranges m := by
    intro m hmi hmj
    rw [rget_set_other _ _ _ _ (fun he => hmj he.symm),
      rget_set_other _ _ _ _ (fun he => hmi he.symm)]
  have hsubL : ∀ z, NodeIdRange.containsId ⟨(rget s.ranges i).low, x - 1⟩ z = true →
      (rget s.ranges i).containsId z = true := by
    intro z hz
    rw [containsId_iff] at hz
    dsimp only at hz
    rw [containsId_iff]
    omega
  have hsubR : ∀ z, NodeIdRange.containsId ⟨x + 1, (rget s.ranges i).high⟩ z = true →
      (rget s.ranges i).containsId z = true := by
    intro z hz
    rw [containsId_iff] at hz
    dsimp only at hz
    rw [containsId_iff]
    omega
  refine ⟨by simpa using hlen, ?_, ?_, ?_⟩
  · intro m
    by_cases hmj : m = j
    · subst hmj
      rw [hgj]
      intro _
      dsimp only
      constructor <;> omega
    · by_cases hmi : m = i
      · subst hmi
        rw [hgi]
        intro _
        dsimp only
        constructor <;> omega
      · rw [hgm m hmi hmj]
        exact hwf m
  · intro a b hab z hza hzb
    by_cases haj : a = j
    · subst haj
      rw [hgj] at hza
      by_cases hbi : b = i
      · subst hbi
        rw [hgi] at hzb
        rw [containsId_iff] at hza hzb
        dsimp only at hza hzb
        omega
      · by_cases hbj : b = a
        · exact absurd hbj.symm hab
        · rw [hgm b hbi hbj] at hzb
          exact hdisj i b (fun he => hbi he.symm) z (hsubR z hza) hzb
    · by_cases hai : a = i
      · subst hai
        rw [hgi] at hza
        by_cases hbj : b = j
        · subst hbj
          rw [hgj] at hzb
          rw [containsId_iff] at hza hzb
          dsimp only at hza hzb
          omega
        · by_cases hbi : b = a
          · exact absurd hbi.symm hab
          · rw [hgm b (fun he => hbi he) hbj] at hzb
            exact hdisj a b hab z (hsubL z hza) hzb
      · rw [hgm a hai haj] at hza
        by_cases hbj : b = j
        · subst hbj
          rw [hgj] at hzb
          exact hdisj a i (fun he => hai he) z hza (hsubR z hzb)
        · by_cases hbi : b = i
          · subst hbi
            rw [hgi] at hzb
            exact hdisj a b hab z hza (hsubL z hzb)
          · rw [hgm b hbi hbj] at hzb
            exact hdisj a b hab z hza hzb
  · have hset1 := sumSizes_set s.ranges i ⟨(rget s.ranges i).low, x - 1⟩ hi
    have hset2 := sumSizes_set (s.ranges.set i ⟨(rget s.ranges i).low, x - 1⟩) j
      ⟨x + 1, (rget s.ranges i).high⟩ (by simpa using hj)
    have hmidj : rget (s.ranges.set i ⟨(rget s.ranges i).low, x - 1⟩) j =
        rget s.ranges j := rget_set_other _ _ _ _ hij
    rw [hmidj] at hset2
    have hszj : (rget s.ranges j).size = 0 := size_zero_of_empty _ hjemp
    have hszi : (rget s.ranges i).size = (rget s.ranges i).high -
        (rget s.ranges i).low + 1 := by
      rw [size_eq, if_neg ((isEmptyRange_false_iff _).mp hnei)]
    have hszL : NodeIdRange.size ⟨(rget s.ranges i).low, x - 1⟩ =
        x - 1 - (rget s.ranges i).low + 1 := by
      rw [size_eq]
      dsimp only
      rw [if_neg (by omega)]
    have hszR : NodeIdRange.size ⟨x + 1, (rget s.ranges i).high⟩ =
        (rget s.ranges i).high - (x + 1) + 1 := by
      rw [size_eq]
      dsimp only
      rw [if_neg (by omega)]
    have hle := size_le_sumSizes s.ranges i hi
    simp only
    omega

theorem findAdjPair_some (l : List ((Nat × NodeIdRange) × (Nat × NodeIdRange)))
    (pq : (Nat × NodeIdRange) × (Nat × NodeIdRange))
    (h : findAdjPair l = some pq) : pq ∈ l ∧ adjCheck pq.1 pq.2 = true := by
  induction l with
  | nil => simp [findAdjPair] at h
  | cons q rest ih =>
    by_cases hq : adjCheck q.1 q.2 = true
    · rw [findAdjPair, if_pos hq] at h
      obtain rfl : q = pq := by simpa using h
      exact ⟨List.mem_cons_self _ _, hq⟩
    · rw [findAdjPair, if_neg hq] at h
      obtain ⟨hm, hc⟩ := ih h
      exact ⟨List.mem_cons_of_mem _ hm, hc⟩

theorem pairProd_mem {A : Type} (l m : List A) (pq : A × A)
    (h : pq ∈ pairProd l m) : pq.1 ∈ l ∧ pq.2 ∈ m := by
  induction l with
  | nil => simp [pairProd] at h
  | cons a t ih =>
    rw [pairProd, List.foldr_cons] at h
    rw [List.mem_append] at h
    rcases h with h1 | h2
    · rw [List.mem_map] at h1
      obtain ⟨q, hq, rfl⟩ := h1
      exact ⟨List.mem_cons_self _ _, hq⟩
    · have := ih (by rw [pairProd]; exact h2)
      exact ⟨List.mem_cons_of_mem _ this.1, this.2⟩

theorem idxed_mem (rs : List NodeIdRange) (k i : Nat) (r : NodeIdRange)
    (h : (i, r) ∈ idxed rs k) : k ≤ i ∧ i - k < rs.length ∧ rget rs (i - k) = r := by
  induction rs generalizing k with
  | nil => simp [idxed] at h
  | cons a t ih =>
    rw [idxed] at h
    rcases List.mem_cons.mp h with h1 | h2
    · obtain ⟨rfl, rfl⟩ : i = k ∧ a = r := by
        have := Prod.mk.injEq i r k a ▸ h1
        exact ⟨congrArg Prod.fst h1, (congrArg Prod.snd h1).symm⟩
      refine ⟨le_refl _, by simp, ?_⟩
      simp [rget]
    · obtain ⟨hk1, hk2, hk3⟩ := ih (k + 1) h2
      refine ⟨by omega, by simp; omega, ?_⟩
      have hik : i - k = (i - (k + 1)) + 1 := by omega
      rw [hik]
      rw [show rget (a :: t) (i - (k + 1) + 1) = rget t (i - (k + 1)) from by
        simp [rget]]
      exact hk3

theorem liveSlots_mem (rs : List NodeIdRange) (p : Nat × NodeIdRange)
    (h : p ∈ liveSlots rs) :
    p.1 < rs.length ∧ rget rs p.1 = p.2 ∧ p.2.isEmptyRange = false := by
  unfold liveSlots at h
  rw [List.mem_filter] at h
  obtain ⟨hmem, hflt⟩ := h
  obtain ⟨i, r⟩ := p
  obtain ⟨h1, h2, h3⟩ := idxed_mem rs 0 i r hmem
  simp only [Nat.sub_zero] at h2 h3
  refine ⟨h2, h3, ?_⟩
  simpa using hflt

theorem mergeStep_wf (s s' : ModelEchelonIdRanges) (hw : RangesWf s)
    (h : mergeStep s = some s') : RangesWf s' := by
  obtain ⟨hlen, hwf, hdisj, hsum⟩ := hw
  unfold mergeStep at h
  cases hfind : findAdjPair (pairProd (liveSlots s.ranges) (liveSlots s.ranges)) with
  | none => rw [hfind] at h; exact absurd h (by simp)
  | some pq =>
    obtain ⟨⟨i, ri⟩, ⟨j, rj⟩⟩ := pq
    rw [hfind] at h
    dsimp only at h
    obtain ⟨hmem, hchk⟩ := findAdjPair_some _ _ hfind
    obtain ⟨hm1, hm2⟩ := pairProd_mem _ _ _ hmem
    obtain ⟨hi, hri, hnei⟩ := liveSlots_mem _ _ hm1
    obtain ⟨hj, hrj, hnej⟩ := liveSlots_mem _ _ hm2
    simp only [Prod.fst, Prod.snd] at hi hri hnei hj hrj hnej
    unfold adjCheck at hchk
    simp only [Bool.and_eq_true, decide_eq_true_eq] at hchk
    obtain ⟨hij, hadj⟩ := hchk
    rw [← hri] at hadj hnei
    rw [← hrj] at hadj hnej
    have hs2 : s' = { len := s.len, ranges := (s.ranges.set i ⟨(rget s.ranges i).low, (rget s.ranges j).high⟩).set j NodeIdRange.sentinel } := by
      rw [hri, hrj]
      have h' := h
      simp only [Option.some_inj] at h'
      exact h'.symm
    subst hs2
    obtain ⟨hli, hlhi⟩ := hwf i hnei
    obtain ⟨hlj, hlhj⟩ := hwf j hnej
    have hgj : rget ((s.ranges.set i
        ⟨(rget s.ranges i).low, (rget s.ranges j).high⟩).set j
        NodeIdRange.sentinel) j = NodeIdRange.sentinel :=
      rget_set_same _ _ _ (by simpa using hj)
    have hgi : rget ((s.ranges.set i
        ⟨(rget s.ranges i).low, (rget s.ranges j).high⟩).set j
        NodeIdRange.sentinel) i = ⟨(rget s.ranges i).low, (rget s.ranges j).high⟩ := by
      rw [rget_set_other _ _ _ _ (fun he => hij he.symm)]
      exact rget_set_same _ _ _ hi
    have hgm : ∀ m, m ≠ i → m ≠ j →
        rget ((s.ranges.set i
          ⟨(rget s.ranges i).low, (rget s.ranges j).high⟩).set j
          NodeIdRange.sentinel) m = rget s.ranges m := by
      intro m hmi hmj
      rw [rget_set_other _ _ _ _ (fun he => hmj he.symm),
        rget_set_other _ _ _ _ (fun he => hmi he.symm)]
    have hsubU : ∀ z,
        NodeIdRange.containsId ⟨(rget s.ranges i).low, (rget s.ranges j).high⟩ z = true →
        (rget s.ranges i).containsId z = true ∨ (rget s.ranges j).containsId z = true := by
      intro z hz
      rw [containsId_iff] at hz
      dsimp only at hz
      rw [containsId_iff, containsId_iff]
      omega
    refine ⟨by simpa using hlen, ?_, ?_, ?_⟩
    · intro m
      by_cases hmj : m = j
      · subst hmj
        rw [hgj]
        intro hc
        simp [NodeIdRange.sentinel, NodeIdRange.isEmptyRange] at hc
      · by_cases hmi : m = i
        · subst hmi
          rw [hgi]
          intro _
          dsimp only
          constructor <;> omega
        · rw [hgm m hmi hmj]
          exact hwf m
    · intro a b hab z hza hzb
      by_cases haj : a = j
      · subst haj
        rw [hgj, containsId_sentinel] at hza
        exact absurd hza (by simp)
      · by_cases hbj : b = j
        · subst hbj
          rw [hgj, containsId_sentinel] at hzb
          exact absurd hzb (by simp)
        · by_cases hai : a = i
          · subst hai
            rw [hgi] at hza
            rw [hgm b (fun he => hab he.symm) hbj] at hzb
            rcases hsubU z hza with hz1 | hz2
            · exact hdisj a b hab z hz1 hzb
            · exact hdisj j b (fun he => hbj he.symm) z hz2 hzb
          · rw [hgm a hai haj] at hza
            by_cases hbi : b = i
            · subst hbi
              rw [hgi] at hzb
              rcases hsubU z hzb with hz1 | hz2
              · exact hdisj a b hab z hza hz1
              · exact hdisj a j haj z hza hz2
            · rw [hgm b hbi hbj] at hzb
              exact hdisj a b hab z hza hzb
    · have hset1 := sumSizes_set s.ranges i
        ⟨(rget s.ranges i).low, (rget s.ranges j).high⟩ hi
      have hset2 := sumSizes_set
        (s.ranges.set i ⟨(rget s.ranges i).low, (rget s.ranges j).high⟩) j
        NodeIdRange.sentinel (by simpa using hj)
      have hmidj : rget (s.ranges.set i
          ⟨(rget s.ranges i).low, (rget s.ranges j).high⟩) j = rget s.ranges j :=
        rget_set_other _ _ _ _ hij
      rw [hmidj] at hset2
      have hszi : (rget s.ranges i).size = (rget s.ranges i).high -
          (rget s.ranges i).low + 1 := by
        rw [size_eq, if_neg ((isEmptyRange_false_iff _).mp hnei)]
      have hszj : (rget s.ranges j).size = (rget s.ranges j).high -
          (rget s.ranges j).low + 1 := by
        rw [size_eq, if_neg ((isEmptyRange_false_iff _).mp hnej)]
      have hszU : NodeIdRange.size ⟨(rget s.ranges i).low, (rget s.ranges j).high⟩ =
          (rget s.ranges j).high - (rget s.ranges i).low + 1 := by
        rw [size_eq]
        dsimp only
        rw [if_neg (by omega)]
      have hszS : NodeIdRange.size NodeIdRange.sentinel = 0 := rfl
      simp only
      omega

theorem mergeAll_wf (fuel : Nat) (s : ModelEchelonIdRanges) (hw : RangesWf s) :
    RangesWf (mergeAll fuel s) := by
  induction fuel generalizing s with
  | zero => exact hw
  | succ n ih =>
    unfold mergeAll
    cases hm : mergeStep s with
    | none => exact hw
    | some s' => exact ih s' (mergeStep_wf s s' hw hm)

theorem removeNode_wf {s s' : ModelEchelonIdRanges} {x : Nat}
    (hw : RangesWf s) (h : removeNode s x = .ok s') : RangesWf s' := by
  obtain ⟨hx0, i, hfi, core, hs', hcases⟩ := removeNode_ok_cases s s' x h
  obtain ⟨hi, hpx⟩ := findIdxB_some _ _ i NodeIdRange.sentinel hfi
  have hxi : (rget s.ranges i).containsId x = true := hpx
  have hnei := containsId_nonempty _ _ hxi
  subst hs'
  apply mergeAll_wf
  rcases hcases with ⟨hb, hcore⟩ | ⟨hnb, j, hfj, hcore⟩ | ⟨hnb, hnone, hcore⟩
  · subst hcore
    exact shrink_wf s hw i x hi hnei
  · subst hcore
    obtain ⟨hj, hpj⟩ := findIdxB_some _ _ j NodeIdRange.sentinel hfj
    exact split_wf s hw i j x hi hj hxi hnb hpj
  · subst hcore
    have hk : (if i = 0 then 1 else 0) < s.ranges.length := by
      rw [hw.hlen]
      split <;> norm_num [MAX_ECHELON_RANGES]
    have hnek := findIdxB_none _ _ NodeIdRange.sentinel hnone _ hk
    exact shrink_wf s hw _ _ hk hnek

theorem rget_replicate (n i : Nat) :
    rget (List.replicate n NodeIdRange.sentinel) i = NodeIdRange.sentinel := by
  unfold rget
  by_cases h : i < n
  · rw [List.getD_eq_getElem _ _ (by simpa using h)]
    simp
  · rw [List.getD_eq_default _ _ (by simpa using Nat.le_of_not_lt h)]

theorem initRanges_wf : RangesWf initRanges := by
  refine ⟨by simp [initRanges], ?_, ?_, ?_⟩
  · intro i hc
    rw [show initRanges.ranges = List.replicate MAX_ECHELON_RANGES
      NodeIdRange.sentinel from rfl, rget_replicate] at hc
    simp [NodeIdRange.sentinel, NodeIdRange.isEmptyRange] at hc
  · intro i j hij z hzi
    rw [show initRanges.ranges = List.replicate MAX_ECHELON_RANGES
      NodeIdRange.sentinel from rfl, rget_replicate, containsId_sentinel] at hzi
    exact absurd hzi (by simp)
  · rfl

theorem reachable_wf (s : ModelEchelonIdRanges) (h : ReachableRanges s) :
    RangesWf s := by
  induction h with
  | init => exact initRanges_wf
  | insStep hr hins ih => exact insertNode_wf ih hins
  | rmStep hr hrm ih => exact removeNode_wf ih hrm

instance {e a : Type} [DecidableEq e] [DecidableEq a] :
    DecidableEq (Except e a) := fun x y =>
  match x, y with
  | .ok v, .ok w => if h : v = w then isTrue (by rw [h]) else isFalse (by simp [h])
  | .error v, .error w =>
    if h : v = w then isTrue (by rw [h]) else isFalse (by simp [h])
  | .ok _, .error _ => isFalse (by simp)
  | .error _, .ok _ => isFalse (by simp)

set_option maxRecDepth 40000

/-- The spec's running scenario, step 1: one node subscribed, range `[1,1]`. -/
def demo1 : ModelEchelonIdRanges :=
  { len := 1, ranges := ⟨1, 1⟩ :: List.replicate 63 NodeIdRange.sentinel }

/-- Scenario step 2: second node gets identifier 2, range `[1,2]`. -/
def demo2 : ModelEchelonIdRanges :=
  { len := 2, ranges := ⟨1, 2⟩ :: List.replicate 63 NodeIdRange.sentinel }

/-- Scenario step 3: third node gets identifier 3, range `[1,3]`. -/
def demo3 : ModelEchelonIdRanges :=
  { len := 3, ranges := ⟨1, 3⟩ :: List.replicate 63 NodeIdRange.sentinel }

/-- Scenario step 4: node 2 unsubscribed (interior removal, split into
`[1,1]` and `[3,3]`). -/
def demo4 : ModelEchelonIdRanges :=
  { len := 2, ranges := ⟨1, 1⟩ :: ⟨3, 3⟩ :: List.replicate 62 NodeIdRange.sentinel }

theorem demo1_reachable : ReachableRanges demo1 :=
  @ReachableRanges.insStep initRanges demo1 1 ReachableRanges.init (by decide)

theorem demo2_reachable : ReachableRanges demo2 :=
  @ReachableRanges.insStep demo1 demo2 2 demo1_reachable (by decide)

theorem demo3_reachable : ReachableRanges demo3 :=
  @ReachableRanges.insStep demo2 demo3 3 demo2_reachable (by decide)

theorem demo4_reachable : ReachableRanges demo4 :=
  @ReachableRanges.rmStep demo3 demo4 2 demo3_reachable (by decide)

/-- Claim C1: for every state of an echelon's identifier range set reachable
by any sequence of insert and remove operations, the field `len` equals the
sum of `(high - low + 1)` over all non-empty (non-sentinel) ranges in the
fixed array. -/
theorem claim_C1_len_eq_sum (s : ModelEchelonIdRanges)
    (h : ReachableRanges s) : s.len = sumSizes s.ranges :=
  (reachable_wf s h).hsum

/-- Witness for C1 at the concrete scenario state `demo4` (three inserts
followed by the removal of interior identifier 2). -/
theorem claim_C1_len_eq_sum_witness : demo4.len = sumSizes demo4.ranges :=
  claim_C1_len_eq_sum demo4 demo4_reachable

/-- Claim C2: in every reachable state of an identifier range set, no two
non-empty ranges overlap, every non-sentinel range satisfies `low ≤ high`,
and no non-empty range contains identifier 0. -/
theorem claim_C2_disjoint_wf (s : ModelEchelonIdRanges)
    (h : ReachableRanges s) :
    (∀ i j, i ≠ j → ∀ x, (rget s.ranges i).containsId x = true →
      (rget s.ranges j).containsId x = true → False) ∧
    (∀ i, (rget s.ranges i).isEmptyRange = false →
      (rget s.ranges i).low ≤ (rget s.ranges i).high) ∧
    (∀ i, (rget s.ranges i).containsId 0 = false) := by
  obtain ⟨hlen, hwf, hdisj, hsum⟩ := reachable_wf s h
  refine ⟨hdisj, fun i hi => (hwf i hi).2, ?_⟩
  intro i
  by_contra hc
  rw [Bool.not_eq_false] at hc
  have h0 := (containsId_iff _ _).mp hc
  have := hwf i (containsId_nonempty _ _ hc)
  omega

/-- Witness for C2 at the concrete scenario state `demo4`. -/
theorem claim_C2_disjoint_wf_witness :
    (∀ i j, i ≠ j → ∀ x, (rget demo4.ranges i).containsId x = true →
      (rget demo4.ranges j).containsId x = true → False) ∧
    (∀ i, (rget demo4.ranges i).isEmptyRange = false →
      (rget demo4.ranges i).low ≤ (rget demo4.ranges i).high) ∧
    (∀ i, (rget demo4.ranges i).containsId 0 = false) :=
  claim_C2_disjoint_wf demo4 demo4_reachable

/-- Claim C6: for a well-formed range set whose designated first range is
non-sentinel, a successful insertion assigns `first.low - 1` exactly when
that does not underflow below the reserved identifier 0 and is unused, and
otherwise assigns `first.high + 1`; the first range is extended to include
the new identifier and `len` increases by exactly 1. -/
theorem claim_C6_insert_growth (s s' : ModelEchelonIdRanges)
    (first : NodeIdRange) (newId : Nat) (hw : RangesWf s)
    (h0 : s.ranges[0]? = some first) (hne : first.isEmptyRange = false)
    (hok : insertNode s = .ok (s', newId)) :
    ((1 ≤ first.low - 1 ∧ usedId s (first.low - 1) = false →
        newId = first.low - 1) ∧
      (¬(1 ≤ first.low - 1 ∧ usedId s (first.low - 1) = false) →
        newId = first.high + 1)) ∧
    ((rget s'.ranges 0).containsId newId = true ∧
      (rget s'.ranges 0).low ≤ first.low ∧ first.high ≤ (rget s'.ranges 0).high) ∧
    s'.len = s.len + 1 := by
  have hlt : 0 < s.ranges.length := by
    rw [hw.hlen]; norm_num [MAX_ECHELON_RANGES]
  have hfst : rget s.ranges 0 = first := by
    unfold rget
    rw [List.getD_eq_getElem _ _ hlt]
    obtain ⟨h', he⟩ := List.getElem?_eq_some.mp h0
    exact he
  obtain ⟨hl1, hlh⟩ := hw.hwf 0 (by rw [hfst]; exact hne)
  rw [hfst] at hl1 hlh
  obtain ⟨f2, hm, hc⟩ := insertNode_ok_cases s s' newId hok
  have hf2 : f2 = first := by
    rw [h0] at hm
    simpa using hm.symm
  rw [hf2] at hc
  rcases hc with ⟨hemp, _, _, _⟩ | ⟨hemp, hid, hge, hun, hs'⟩ |
      ⟨hemp, hid, hbound, hun, hnd, hs'⟩
  · rw [hemp] at hne
    exact absurd hne (by simp)
  · subst hs'
    refine ⟨⟨fun _ => hid, fun hng => absurd ⟨by omega, by rw [← hid]; exact hun⟩ hng⟩,
      ?_, rfl⟩
    have hsame : rget (s.ranges.set 0 ⟨newId, first.high⟩) 0 = ⟨newId, first.high⟩ :=
      rget_set_same _ _ _ hlt
    rw [show ({ len := s.len + 1, ranges := s.ranges.set 0 ⟨newId, first.high⟩ } :
      ModelEchelonIdRanges).ranges = s.ranges.set 0 ⟨newId, first.high⟩ from rfl]
    rw [hsame]
    refine ⟨?_, by dsimp only; omega, by dsimp only; omega⟩
    rw [containsId_iff]
    dsimp only
    omega
  · subst hs'
    refine ⟨⟨fun hg => absurd hg hnd, fun _ => hid⟩, ?_, rfl⟩
    have hsame : rget (s.ranges.set 0 ⟨first.low, newId⟩) 0 = ⟨first.low, newId⟩ :=
      rget_set_same _ _ _ hlt
    rw [show ({ len := s.len + 1, ranges := s.ranges.set 0 ⟨first.low, newId⟩ } :
      ModelEchelonIdRanges).ranges = s.ranges.set 0 ⟨first.low, newId⟩ from rfl]
    rw [hsame]
    refine ⟨?_, by dsimp only; omega, by dsimp only; omega⟩
    rw [containsId_iff]
    dsimp only
    omega

/-- Witness for C6: inserting into the scenario state `demo1` (first range
`[1,1]`) succeeds with identifier 2 = `first.high + 1`, because
`first.low - 1 = 0` is the reserved identifier. -/
theorem claim_C6_insert_growth_witness :
    ((1 ≤ (NodeIdRange.mk 1 1).low - 1 ∧
        usedId demo1 ((NodeIdRange.mk 1 1).low - 1) = false →
        2 = (NodeIdRange.mk 1 1).low - 1) ∧
      (¬(1 ≤ (NodeIdRange.mk 1 1).low - 1 ∧
        usedId demo1 ((NodeIdRange.mk 1 1).low - 1) = false) →
        2 = (NodeIdRange.mk 1 1).high + 1)) ∧
    ((rget demo2.ranges 0).containsId 2 = true ∧
      (rget demo2.ranges 0).low ≤ (NodeIdRange.mk 1 1).low ∧
      (NodeIdRange.mk 1 1).high ≤ (rget demo2.ranges 0).high) ∧
    demo2.len = demo1.len + 1 :=
  claim_C6_insert_growth demo1 demo2 ⟨1, 1⟩ 2
    (reachable_wf demo1 demo1_reachable) (by decide) (by decide) (by decide)

/-- Per-node identity record (`AssignedNodeId` in the source): a node is
Subscribed with an identifier, has Unsubscribed, or was Reassigned from
`from_id` to `to_id` at `at_slot`, with `old_id_assigned_at_slot` recording
when `from_id` became valid. -/
inductive AssignedNodeId where
  | Subscribed (id : Nat) (at_slot : Nat)
  | Unsubscribed (id : Nat) (at_slot : Nat)
  | Reassigned (at_slot : Nat) (from_id : Nat) (to_id : Nat)
      (old_id_assigned_at_slot : Nat)
deriving DecidableEq, Repr

/-- The identifier a record currently holds as a live Subscribed node. -/
def subscribedId : AssignedNodeId → Option Nat
  | .Subscribed id _ => some id
  | _ => none

/-- Modelled from the spec: the checked `NodeId` constructor.  The source
marks it `TODO: Provide constructor that fails if 0 is passed` and the
spec's error taxonomy assigns `InvalidIdentifier` to any attempted use of
identifier 0. -/
def mkNodeId (x : Nat) : Except AllocError Nat :=
  if x = 0 then .error .InvalidIdentifier else .ok x

/-- All identifier fields of a record are non-zero. -/
def recordIdsPos : AssignedNodeId → Prop
  | .Subscribed id _ => 1 ≤ id
  | .Unsubscribed id _ => 1 ≤ id
  | .Reassigned _ f t _ => 1 ≤ f ∧ 1 ≤ t

/-- Modelled from the spec: the two-record mutation of the no-free-slot
removal fallback (§4.1 step 3).  The departing node (record index `d`,
Subscribed with identifier `x`) becomes Unsubscribed at `now`; the boundary
node (record index `b`, Subscribed with identifier `bid` since slot `sb`)
is reassigned to take over `x`: it becomes
`Reassigned {at_slot := now, from_id := bid, to_id := x,
old_id_assigned_at_slot := sb}`. -/
def swapReassign (records : List AssignedNodeId) (d b now : Nat) :
    Option (List AssignedNodeId) :=
  match records[d]?, records[b]? with
  | some (.Subscribed x _), some (.Subscribed bid sb) =>
    if d ≠ b then
      some ((records.set d (.Unsubscribed x now)).set b
        (.Reassigned now bid x sb))
    else none
  | _, _ => none

theorem swapReassign_ok_cases (records out : List AssignedNodeId)
    (d b now : Nat) (h : swapReassign records d b now = some out) :
    ∃ x sd bid sb, records[d]? = some (.Subscribed x sd) ∧
      records[b]? = some (.Subscribed bid sb) ∧ d ≠ b ∧
      out = (records.set d (.Unsubscribed x now)).set b
        (.Reassigned now bid x sb) := by
  unfold swapReassign at h
  cases hd : records[d]? with
  | none => rw [hd] at h; exact absurd h (by simp)
  | some rd =>
    cases hb : records[b]? with
    | none =>
      rw [hd, hb] at h
      cases rd <;> exact absurd h (by simp)
    | some rb =>
      rw [hd, hb] at h
      cases rd with
      | Subscribed x sd =>
        cases rb with
        | Subscribed bid sb =>
          dsimp only at h
          by_cases hdb : d ≠ b
          · rw [if_pos hdb] at h
            refine ⟨x, sd, bid, sb, rfl, rfl, hdb, ?_⟩
            simpa using h.symm
          · rw [if_neg hdb] at h
            exact absurd h (by simp)
        | Unsubscribed id2 s2 => exact absurd h (by simp)
        | Reassigned a2 f2 t2 o2 => exact absurd h (by simp)
      | Unsubscribed id1 s1 => exact absurd h (by simp)
      | Reassigned a1 f1 t1 o1 => exact absurd h (by simp)

/-- Slot `i` of a record list, with a harmless default (an Unsubscribed
record resolves and subscribes nothing) for out-of-bounds reads. -/
def nrget (records : List AssignedNodeId) (i : Nat) : AssignedNodeId :=
  records.getD i (.Unsubscribed 0 0)

theorem nrget_set_same (l : List AssignedNodeId) (i : Nat) (r : AssignedNodeId)
    (h : i < l.length) : nrget (l.set i r) i = r := by
  unfold nrget
  rw [List.getD_eq_getElem _ _ (by simpa using h)]
  exact List.getElem_set_self (by simpa using h)

theorem nrget_set_other (l : List AssignedNodeId) (i j : Nat)
    (r : AssignedNodeId) (h : i ≠ j) : nrget (l.set i r) j = nrget l j := by
  induction l generalizing i j with
  | nil => simp [List.set]
  | cons a t ih =>
    cases i with
    | zero =>
      cases j with
      | zero => exact absurd rfl h
      | succ m => simp [nrget, List.set]
    | succ n =>
      cases j with
      | zero => simp [nrget, List.set]
      | succ m => simpa [nrget, List.set] using ih n m (by omega)

/-- No two records of the list are simultaneously Subscribed with the same
identifier (computable pairwise check). -/
def uniqueSubscribedB : List AssignedNodeId → Bool
  | [] => true
  | r :: t =>
    t.all (fun q =>
      match subscribedId r, subscribedId q with
      | some a, some b => a != b
      | _, _ => true) && uniqueSubscribedB t

theorem uniqueSubscribedB_iff (l : List AssignedNodeId) :
    uniqueSubscribedB l = true ↔ ∀ i j, i < j → j < l.length → ∀ x,
      subscribedId (nrget l i) = some x → subscribedId (nrget l j) = some x →
      False := by
  induction l with
  | nil =>
    simp only [uniqueSubscribedB]
    constructor
    · intro _ i j hij hj x h1 h2
      simp at hj
    · intro _
      trivial
  | cons r t ih =>
    rw [uniqueSubscribedB, Bool.and_eq_true, List.all_eq_true, ih]
    constructor
    · intro ⟨hall, hrest⟩ i j hij hj x h1 h2
      cases i with
      | zero =>
        cases j with
        | zero => omega
        | succ m =>
          have hm : nrget (r :: t) (m + 1) = nrget t m := by simp [nrget]
          have h0 : nrget (r :: t) 0 = r := by simp [nrget]
          rw [h0] at h1
          rw [hm] at h2
          have hjm : m < t.length := by simpa using hj
          have hmem : nrget t m ∈ t := by
            unfold nrget
            rw [List.getD_eq_getElem _ _ hjm]
            exact List.getElem_mem hjm
          have := hall _ hmem
          rw [h1, h2] at this
          simp at this
      | succ n =>
        cases j with
        | zero => omega
        | succ m =>
          have hn : nrget (r :: t) (n + 1) = nrget t n := by simp [nrget]
          have hm : nrget (r :: t) (m + 1) = nrget t m := by simp [nrget]
          rw [hn] at h1
          rw [hm] at h2
          exact hrest n m (by omega) (by simpa using hj) x h1 h2
    · intro hidx
      refine ⟨?_, ?_⟩
      · intro q hq
        obtain ⟨m, hm, rfl⟩ := List.getElem_of_mem hq
        cases hsr : subscribedId r with
        | none => simp
        | some a =>
          cases hsq : subscribedId t[m] with
          | none => simp
          | some b =>
            dsimp only
            simp only [bne_iff_ne, ne_eq]
            intro hab
            subst hab
            refine hidx 0 (m + 1) (by omega) (by simpa using hm) a ?_ ?_
            · simpa [nrget] using hsr
            · rw [show nrget (r :: t) (m + 1) = nrget t m from by simp [nrget]]
              unfold nrget
              rw [List.getD_eq_getElem _ _ hm]
              exact hsq
      · intro n m hnm hmt x h1 h2
        refine hidx (n + 1) (m + 1) (by omega) (by simpa using hmt) x ?_ ?_
        · rw [show nrget (r :: t) (n + 1) = nrget t n from by simp [nrget]]
          exact h1
        · rw [show nrget (r :: t) (m + 1) = nrget t m from by simp [nrget]]
          exact h2

/-- Claim C4: a swap-triggered reassignment (the no-free-slot removal
fallback) never produces a state with two nodes simultaneously Subscribed
holding the same identifier: if at most one node is Subscribed per
identifier before the swap, the same holds after it (the departing record
becomes Unsubscribed and the boundary record becomes Reassigned, so no new
Subscribed record appears). -/
theorem claim_C4_swap_unique (records out : List AssignedNodeId)
    (d b now : Nat) (hu : uniqueSubscribedB records = true)
    (h : swapReassign records d b now = some out) :
    uniqueSubscribedB out = true := by
  obtain ⟨x, sd, bid, sb, hd, hb, hdb, hout⟩ :=
    swapReassign_ok_cases records out d b now h
  subst hout
  have hdlt : d < records.length := by
    have := List.getElem?_eq_some.mp hd
    exact this.1
  have hblt : b < records.length := by
    have := List.getElem?_eq_some.mp hb
    exact this.1
  rw [uniqueSubscribedB_iff] at hu ⊢
  intro i j hij hj x0 h1 h2
  have hget : ∀ m, subscribedId (nrget ((records.set d
      (.Unsubscribed x now)).set b (.Reassigned now bid x sb)) m) = some x0 →
      m ≠ d ∧ m ≠ b ∧ subscribedId (nrget records m) = some x0 := by
    intro m hm
    by_cases hmb : m = b
    · subst hmb
      rw [nrget_set_same _ _ _ (by simpa using hblt)] at hm
      exact absurd hm (by simp [subscribedId])
    · rw [nrget_set_other _ _ _ _ (fun he => hmb he.symm)] at hm
      by_cases hmd : m = d
      · subst hmd
        rw [nrget_set_same _ _ _ hdlt] at hm
        exact absurd hm (by simp [subscribedId])
      · rw [nrget_set_other _ _ _ _ (fun he => hmd he.symm)] at hm
        exact ⟨hmd, hmb, hm⟩
    
  obtain ⟨hid, hib, h1'⟩ := hget i h1
  obtain ⟨hjd, hjb, h2'⟩ := hget j h2
  exact hu i j hij (by simpa using hj) x0 h1' h2'

/-- Concrete pre-swap record list for the C4 witness. -/
def demoRecords : List AssignedNodeId :=
  [.Subscribed 5 10, .Subscribed 1 3, .Subscribed 9 2]

/-- The record list after swapping: node 0 departs holding 5, node 1 is
reassigned from 1 to 5. -/
def demoSwapOut : List AssignedNodeId :=
  [.Unsubscribed 5 20, .Reassigned 20 1 5 3, .Subscribed 9 2]

/-- Witness for C4 at the concrete swap of `demoRecords`. -/
theorem claim_C4_swap_unique_witness : uniqueSubscribedB demoSwapOut = true :=
  claim_C4_swap_unique demoRecords demoSwapOut 0 1 20 (by decide) (by decide)

instance : ∀ r : AssignedNodeId, Decidable (recordIdsPos r) := fun r => by
  cases r <;> simp only [recordIdsPos] <;> infer_instance

/-- Claim C3: identifier 0 is reserved.  Every identifier handed out by
insertion is non-zero; removing (using) identifier 0 fails with
`InvalidIdentifier`; the checked constructor rejects 0 with
`InvalidIdentifier`; and the swap reassignment keeps every identifier field
of every record non-zero. -/
theorem claim_C3_zero_reserved :
    (∀ s s' id, insertNode s = .ok (s', id) → 1 ≤ id) ∧
    (∀ s : ModelEchelonIdRanges, removeNode s 0 = .error .InvalidIdentifier) ∧
    mkNodeId 0 = .error .InvalidIdentifier ∧
    (∀ records out d b now, swapReassign records d b now = some out →
      (∀ r, r ∈ records → recordIdsPos r) → ∀ r, r ∈ out → recordIdsPos r) := by
  refine ⟨?_, ?_, rfl, ?_⟩
  · intro s s' id h
    obtain ⟨first, hm, hc⟩ := insertNode_ok_cases s s' id h
    rcases hc with ⟨_, hid, _, _⟩ | ⟨_, _, hge, _, _⟩ | ⟨_, hid, _, _, _, _⟩
    · omega
    · exact hge
    · omega
  · intro s
    unfold removeNode
    rw [if_pos rfl]
  · intro records out d b now h hpos r hr
    obtain ⟨x, sd, bid, sb, hd, hb, hdb, hout⟩ :=
      swapReassign_ok_cases records out d b now h
    subst hout
    have hxmem : AssignedNodeId.Subscribed x sd ∈ records := by
      obtain ⟨hlt, he⟩ := List.getElem?_eq_some.mp hd
      rw [← he]
      exact List.getElem_mem hlt
    have hbmem : AssignedNodeId.Subscribed bid sb ∈ records := by
      obtain ⟨hlt, he⟩ := List.getElem?_eq_some.mp hb
      rw [← he]
      exact List.getElem_mem hlt
    have hx1 : 1 ≤ x := hpos _ hxmem
    have hb1 : 1 ≤ bid := hpos _ hbmem
    rcases List.mem_or_eq_of_mem_set hr with hr2 | hr2
    · rcases List.mem_or_eq_of_mem_set hr2 with hr3 | hr3
      · exact hpos r hr3
      · subst hr3
        exact hx1
    · subst hr2
      exact ⟨hb1, hx1⟩

/-- Witness for C3: insertion into `demo1` yields the non-zero identifier
2; removal of identifier 0 and the checked constructor reject 0; the
concrete swap of `demoRecords` keeps all record identifiers non-zero. -/
theorem claim_C3_zero_reserved_witness :
    (1 ≤ 2) ∧ removeNode demo1 0 = .error .InvalidIdentifier ∧
    mkNodeId 0 = .error .InvalidIdentifier ∧
    (∀ r, r ∈ demoSwapOut → recordIdsPos r) :=
  ⟨claim_C3_zero_reserved.1 demo1 demo2 2 (by decide),
   claim_C3_zero_reserved.2.1 demo1,
   claim_C3_zero_reserved.2.2.1,
   claim_C3_zero_reserved.2.2.2 demoRecords demoSwapOut 0 1 20 (by decide)
     (by decide)⟩

/-- A record resolves ticket identifier `x` as a live subscription. -/
def resolvesLiveB (x : Nat) (r : AssignedNodeId) : Bool :=
  subscribedId r == some x

/-- A record resolves ticket identifier `x` created at logical time `t`
through its reassignment history: it was reassigned away from `x` at
`at_slot`, and `t` falls in `[old_id_assigned_at_slot, at_slot)`. -/
def resolvesOldB (x t : Nat) (r : AssignedNodeId) : Bool :=
  match r with
  | .Reassigned at_slot from_id _ old =>
    decide (from_id = x) && decide (old ≤ t) && decide (t < at_slot)
  | _ => false

/-- Modelled from the spec: ticket resolution (§4.1).  Given identifier `x`
and the ticket's creation time `t`, resolve to the record index of a live
`Subscribed {id := x}` node when one exists, and otherwise to the index of
a `Reassigned` record with `from_id = x` whose interval
`[old_id_assigned_at_slot, at_slot)` contains `t`. -/
def resolveTicket (records : List AssignedNodeId) (x t : Nat) : Option Nat :=
  match findIdxB (resolvesLiveB x) records with
  | some i => some i
  | none => findIdxB (resolvesOldB x t) records

theorem findIdxB_some_of_any {α : Type} (p : α → Bool) (l : List α)
    (h : l.any p = true) : ∃ i, findIdxB p l = some i := by
  induction l with
  | nil => simp at h
  | cons a t ih =>
    by_cases hp : p a = true
    · exact ⟨0, by rw [findIdxB, if_pos hp]⟩
    · rw [List.any_cons] at h
      rw [Bool.or_eq_true] at h
      rcases h with h | h
      · exact absurd h hp
      · obtain ⟨i, hi⟩ := ih h
        exact ⟨i + 1, by rw [findIdxB, if_neg hp, hi]; rfl⟩

theorem findIdxB_none_of_any_false {α : Type} (p : α → Bool) (l : List α)
    (h : l.any p = false) : findIdxB p l = none := by
  induction l with
  | nil => rfl
  | cons a t ih =>
    rw [List.any_cons] at h
    rw [Bool.or_eq_false_iff] at h
    rw [findIdxB, if_neg (by rw [h.1]; simp), ih h.2]
    rfl

/-- Claim C5: ticket resolution returns a node with a live Subscribed
record holding `x` when one exists; otherwise any returned node has a
Reassigned record with `from_id = x` whose interval
`[old_id_assigned_at_slot, at_slot)` contains the ticket creation time,
and such a node is found whenever one exists. -/
theorem claim_C5_ticket_resolution (records : List AssignedNodeId)
    (x t : Nat) :
    (records.any (resolvesLiveB x) = true →
      ∃ i, i < records.length ∧ resolveTicket records x t = some i ∧
        resolvesLiveB x (nrget records i) = true) ∧
    (records.any (resolvesLiveB x) = false →
      ∀ i, resolveTicket records x t = some i →
        i < records.length ∧ resolvesOldB x t (nrget records i) = true) ∧
    (records.any (resolvesLiveB x) = false →
      records.any (resolvesOldB x t) = true →
      ∃ i, i < records.length ∧ resolveTicket records x t = some i ∧
        resolvesOldB x t (nrget records i) = true) := by
  refine ⟨?_, ?_, ?_⟩
  · intro hany
    obtain ⟨i, hi⟩ := findIdxB_some_of_any _ _ hany
    obtain ⟨hlt, hp⟩ := findIdxB_some _ _ i (.Unsubscribed 0 0) hi
    refine ⟨i, hlt, ?_, hp⟩
    unfold resolveTicket
    rw [hi]
  · intro hany i hres
    have hnone := findIdxB_none_of_any_false _ _ hany
    unfold resolveTicket at hres
    rw [hnone] at hres
    obtain ⟨hlt, hp⟩ := findIdxB_some _ _ i (.Unsubscribed 0 0) hres
    exact ⟨hlt, hp⟩
  · intro hany hold
    have hnone := findIdxB_none_of_any_false _ _ hany
    obtain ⟨i, hi⟩ := findIdxB_some_of_any _ _ hold
    obtain ⟨hlt, hp⟩ := findIdxB_some _ _ i (.Unsubscribed 0 0) hi
    refine ⟨i, hlt, ?_, hp⟩
    unfold resolveTicket
    rw [hnone, hi]

/-- Concrete record list for the C5 witness: identifier 7 was reassigned to
2 at slot 30 (held since slot 10); a ticket for 7 created at time 15 must
resolve to that node (index 1) even though no node is live with 7. -/
def demoResolveRecords : List AssignedNodeId :=
  [.Unsubscribed 4 5, .Reassigned 30 7 2 10, .Subscribed 2 30]

/-- Witness for C5: the ticket (identifier 7, creation time 15) resolves
through the Reassigned record at index 1. -/
theorem claim_C5_ticket_resolution_witness :
    ∃ i, i < demoResolveRecords.length ∧
      resolveTicket demoResolveRecords 7 15 = some i ∧
      resolvesOldB 7 15 (nrget demoResolveRecords i) = true :=
  (claim_C5_ticket_resolution demoResolveRecords 7 15).2.2 (by decide) (by decide)

/-- Modelled from the spec: the transitions of the node-identity state
machine (§4.2): a Subscribed node is either reassigned by the swap
procedure or departs; a Reassigned node either collapses to Subscribed with
its new identifier once the cooldown has elapsed, or departs.  No
transition leaves Unsubscribed. -/
inductive NodeStep : AssignedNodeId → AssignedNodeId → Prop where
  | reassign (id at_slot now newId : Nat) :
      NodeStep (.Subscribed id at_slot) (.Reassigned now id newId at_slot)
  | depart (id at_slot now : Nat) :
      NodeStep (.Subscribed id at_slot) (.Unsubscribed id now)
  | collapse (a f t o : Nat) :
      NodeStep (.Reassigned a f t o) (.Subscribed t a)
  | departReassigned (a f t o now : Nat) :
      NodeStep (.Reassigned a f t o) (.Unsubscribed t now)

/-- Reflexive-transitive closure of the node state machine. -/
inductive NodeReaches : AssignedNodeId → AssignedNodeId → Prop where
  | refl (r : AssignedNodeId) : NodeReaches r r
  | tail {r r' r'' : AssignedNodeId} :
      NodeReaches r r' → NodeStep r' r'' → NodeReaches r r''

/-- Claim C7: the Unsubscribed state is terminal: no single transition
leaves it, and every state reachable from it is itself. -/
theorem claim_C7_unsubscribed_terminal (id at_slot : Nat) :
    (∀ r', ¬ NodeStep (.Unsubscribed id at_slot) r') ∧
    (∀ r', NodeReaches (.Unsubscribed id at_slot) r' →
      r' = .Unsubscribed id at_slot) := by
  constructor
  · intro r' hstep
    cases hstep
  · intro r' hreach
    induction hreach with
    | refl => rfl
    | tail hr hstep ih =>
      subst ih
      cases hstep

/-- Witness for C7: the record Unsubscribed 3 9 reaches only itself. -/
theorem claim_C7_unsubscribed_terminal_witness :
    AssignedNodeId.Unsubscribed 3 9 = .Unsubscribed 3 9 :=
  (claim_C7_unsubscribed_terminal 3 9).2 _
    (NodeReaches.refl (.Unsubscribed 3 9))

/-- The identifiers covered by one slot, as an explicit list. -/
def liveChunk (r : NodeIdRange) : List Nat :=
  if r.isEmptyRange then [] else List.range' r.low (r.high - r.low + 1)

/-- The identifiers covered by the array, in slot order. -/
def liveIdsL (rs : List NodeIdRange) : List Nat :=
  rs.flatMap liveChunk

/-- The identifiers currently live in the range set. -/
def liveIds (s : ModelEchelonIdRanges) : List Nat :=
  liveIdsL s.ranges

/-- Modelled from the spec: draw `k` identifiers without replacement from
the pool, at positions given by the external entropy words (the sampler
never generates its own entropy). -/
def pickDistinct : Nat → List Nat → List Nat → List Nat
  | 0, _, _ => []
  | k + 1, entropy, pool =>
    if pool.length = 0 then []
    else
      let y := pool.getD (entropy.headD 0 % pool.length) 0
      y :: pickDistinct k entropy.tail (pool.erase y)

/-- Modelled from the spec: sampling (§4.3).  Fails with
`InsufficientCapacity` exactly when the requested count exceeds `len`;
otherwise draws `k` identifiers without replacement from the union of the
non-empty ranges, driven by the external entropy words. -/
def sampleIds (s : ModelEchelonIdRanges) (k : Nat) (entropy : List Nat) :
    Except AllocError (List Nat) :=
  if s.len < k then .error .InsufficientCapacity
  else .ok (pickDistinct k entropy (liveIds s))

theorem liveChunk_length (r : NodeIdRange) : (liveChunk r).length = r.size := by
  unfold liveChunk
  rw [size_eq]
  by_cases h : r.isEmptyRange = true
  · rw [if_pos h, if_pos ((isEmptyRange_iff r).mp h)]
    rfl
  · rw [Bool.not_eq_true] at h
    rw [if_neg (by rw [h]; simp), if_neg ((isEmptyRange_false_iff r).mp h)]
    exact List.length_range' ..

theorem liveChunk_mem (r : NodeIdRange) (y : Nat)
    (hlh : r.isEmptyRange = false → r.low ≤ r.high) (h : y ∈ liveChunk r) :
    r.containsId y = true := by
  unfold liveChunk at h
  by_cases he : r.isEmptyRange = true
  · rw [if_pos he] at h
    simp at h
  · rw [Bool.not_eq_true] at he
    rw [if_neg (by rw [he]; simp)] at h
    rw [List.mem_range'_1] at h
    rw [containsId_iff]
    have h1 := (isEmptyRange_false_iff r).mp he
    have h2 := hlh he
    omega

theorem liveChunk_mem_of_contains (r : NodeIdRange) (y : Nat)
    (h : r.containsId y = true) : y ∈ liveChunk r := by
  rw [containsId_iff] at h
  unfold liveChunk
  rw [if_neg (by rw [isEmptyRange_iff]; exact h.1)]
  rw [List.mem_range'_1]
  omega

theorem liveIdsL_length (rs : List NodeIdRange) :
    (liveIdsL rs).length = sumSizes rs := by
  induction rs with
  | nil => rfl
  | cons a t ih =>
    rw [show liveIdsL (a :: t) = liveChunk a ++ liveIdsL t from by
      simp [liveIdsL]]
    rw [List.length_append, ih, liveChunk_length]
    simp [sumSizes]

theorem rget_cons_succ (a : NodeIdRange) (t : List NodeIdRange) (m : Nat) :
    rget (a :: t) (m + 1) = rget t m := by simp [rget]

theorem liveIdsL_mem (rs : List NodeIdRange)
    (hwf : ∀ i, (rget rs i).isEmptyRange = false →
      1 ≤ (rget rs i).low ∧ (rget rs i).low ≤ (rget rs i).high)
    (y : Nat) (h : y ∈ liveIdsL rs) :
    ∃ i, i < rs.length ∧ (rget rs i).containsId y = true := by
  induction rs with
  | nil => simp [liveIdsL] at h
  | cons a t ih =>
    rw [show liveIdsL (a :: t) = liveChunk a ++ liveIdsL t from by
      simp [liveIdsL]] at h
    rw [List.mem_append] at h
    rcases h with h | h
    · refine ⟨0, by simp, ?_⟩
      rw [show rget (a :: t) 0 = a from rfl]
      refine liveChunk_mem a y ?_ h
      intro hne
      have := hwf 0 (by rw [show rget (a :: t) 0 = a from rfl]; exact hne)
      rw [show rget (a :: t) 0 = a from rfl] at this
      exact this.2
    · have hwt : ∀ i, (rget t i).isEmptyRange = false →
          1 ≤ (rget t i).low ∧ (rget t i).low ≤ (rget t i).high := by
        intro i hi
        have := hwf (i + 1)
        rw [rget_cons_succ] at this
        exact this hi
      obtain ⟨m, hm, hc⟩ := ih hwt h
      exact ⟨m + 1, by simpa using hm, by rw [rget_cons_succ]; exact hc⟩

theorem liveIdsL_nodup (rs : List NodeIdRange)
    (hwf : ∀ i, (rget rs i).isEmptyRange = false →
      1 ≤ (rget rs i).low ∧ (rget rs i).low ≤ (rget rs i).high)
    (hdisj : ∀ i j, i ≠ j → ∀ x, (rget rs i).containsId x = true →
      (rget rs j).containsId x = true → False) :
    (liveIdsL rs).Nodup := by
  induction rs with
  | nil => exact List.Pairwise.nil
  | cons a t ih =>
    have hwt : ∀ i, (rget t i).isEmptyRange = false →
        1 ≤ (rget t i).low ∧ (rget t i).low ≤ (rget t i).high := by
      intro i hi
      have := hwf (i + 1)
      rw [rget_cons_succ] at this
      exact this hi
    have hwa : a.isEmptyRange = false → a.low ≤ a.high := by
      intro hne
      have := hwf 0 (by rw [show rget (a :: t) 0 = a from rfl]; exact hne)
      rw [show rget (a :: t) 0 = a from rfl] at this
      exact this.2
    rw [show liveIdsL (a :: t) = liveChunk a ++ liveIdsL t from by
      simp [liveIdsL]]
    rw [List.nodup_append]
    refine ⟨?_, ?_, ?_⟩
    · unfold liveChunk
      by_cases he : a.isEmptyRange = true
      · rw [if_pos he]
        exact List.Pairwise.nil
      · rw [Bool.not_eq_true] at he
        rw [if_neg (by rw [he]; simp)]
        exact List.nodup_range' _ _
    · refine ih hwt ?_
      intro i j hij x h1 h2
      exact hdisj (i + 1) (j + 1) (by omega) x
        (by rw [rget_cons_succ]; exact h1) (by rw [rget_cons_succ]; exact h2)
    · intro y hy hy2
      obtain ⟨m, hm, hc⟩ := liveIdsL_mem t hwt y hy2
      exact hdisj 0 (m + 1) (by omega) y
        (by rw [show rget (a :: t) 0 = a from rfl]
            exact liveChunk_mem a y hwa hy)
        (by rw [rget_cons_succ]; exact hc)

theorem pickDistinct_spec (k : Nat) (entropy pool : List Nat)
    (hnd : pool.Nodup) (hk : k ≤ pool.length) :
    (pickDistinct k entropy pool).length = k ∧
    (pickDistinct k entropy pool).Nodup ∧
    ∀ y ∈ pickDistinct k entropy pool, y ∈ pool := by
  induction k generalizing entropy pool with
  | zero => simp [pickDistinct]
  | succ n ih =>
    have hpos : 0 < pool.length := by omega
    unfold pickDistinct
    rw [if_neg (by omega)]
    have hidx : entropy.headD 0 % pool.length < pool.length :=
      Nat.mod_lt _ hpos
    have hymem : pool.getD (entropy.headD 0 % pool.length) 0 ∈ pool := by
      rw [List.getD_eq_getElem _ _ hidx]
      exact List.getElem_mem hidx
    have hlen : (pool.erase (pool.getD (entropy.headD 0 % pool.length) 0)).length
        = pool.length - 1 := List.length_erase_of_mem hymem
    have hnd2 := hnd.erase (pool.getD (entropy.headD 0 % pool.length) 0)
    obtain ⟨ihlen, ihnd, ihsub⟩ := ih entropy.tail _ hnd2 (by omega)
    refine ⟨by simpa using ihlen, ?_, ?_⟩
    · rw [List.nodup_cons]
      refine ⟨?_, ihnd⟩
      intro hmem
      have := ihsub _ hmem
      rw [hnd.mem_erase_iff] at this
      exact this.1 rfl
    · intro y hy
      rw [List.mem_cons] at hy
      rcases hy with rfl | hy
      · exact hymem
      · have := ihsub _ hy
        rw [hnd.mem_erase_iff] at this
        exact this.2

/-- Claim C8: for a well-formed range set of size `len = n`, sampling `k`
identifiers fails with `InsufficientCapacity` exactly when `k > n`, and
otherwise returns exactly `k` distinct identifiers, each non-zero and lying
inside some non-empty range (without replacement within one call). -/
theorem claim_C8_sampling (s : ModelEchelonIdRanges) (k : Nat)
    (entropy : List Nat) (hw : RangesWf s) :
    (sampleIds s k entropy = .error .InsufficientCapacity ↔ s.len < k) ∧
    (∀ ids, sampleIds s k entropy = .ok ids →
      ids.length = k ∧ ids.Nodup ∧
      ∀ y ∈ ids, 1 ≤ y ∧
        ∃ i, i < s.ranges.length ∧ (rget s.ranges i).containsId y = true) := by
  have hpool_len : (liveIds s).length = s.len := by
    rw [show liveIds s = liveIdsL s.ranges from rfl, liveIdsL_length]
    exact hw.hsum.symm
  have hpool_nd : (liveIds s).Nodup := liveIdsL_nodup s.ranges hw.hwf hw.hdisj
  constructor
  · unfold sampleIds
    by_cases h : s.len < k
    · rw [if_pos h]
      simp [h]
    · rw [if_neg h]
      simp [h]
  · intro ids hids
    unfold sampleIds at hids
    by_cases h : s.len < k
    · rw [if_pos h] at hids
      exact absurd hids (by simp)
    · rw [if_neg h] at hids
      have hids2 : ids = pickDistinct k entropy (liveIds s) := by
        simpa using hids.symm
      subst hids2
      obtain ⟨hlen, hnd, hsub⟩ :=
        pickDistinct_spec k entropy (liveIds s) hpool_nd (by omega)
      refine ⟨hlen, hnd, ?_⟩
      intro y hy
      obtain ⟨i, hi, hc⟩ := liveIdsL_mem s.ranges hw.hwf y (hsub y hy)
      refine ⟨?_, i, hi, hc⟩
      have hwfi := hw.hwf i (containsId_nonempty _ _ hc)
      rw [containsId_iff] at hc
      omega

/-- Witness for C8: sampling 2 identifiers from the scenario state `demo4`
(live identifiers 1 and 3) with entropy `[5, 3]`. -/
theorem claim_C8_sampling_witness :
    (sampleIds demo4 2 [5, 3] = .error .InsufficientCapacity ↔
      demo4.len < 2) ∧
    (∀ ids, sampleIds demo4 2 [5, 3] = .ok ids →
      ids.length = 2 ∧ ids.Nodup ∧
      ∀ y ∈ ids, 1 ≤ y ∧
        ∃ i, i < demo4.ranges.length ∧
          (rget demo4.ranges i).containsId y = true) :=
  claim_C8_sampling demo4 2 [5, 3] (reachable_wf demo4 demo4_reachable)

/-- One echelon (`ModelEchelon` in the source): flags (bit 0 initialized,
bit 1 enabled), per-token fees, relative performance weight, settlement
timeout, and the identifier range set. -/
structure ModelEchelon where
  flags : Nat
  input_fee_per_token : Nat
  output_fee_per_token : Nat
  relative_performance : Nat
  settlement_timeout_slots : Nat
  ranges : ModelEchelonIdRanges
deriving DecidableEq, Repr

/-- The echelon-group account (`ModelEchelonGroupV1` in the source): flags
(bit 0 initialized), modality tag, and the fixed array of
`MAX_ECHELONS_PER_MODEL_GROUP_V1` echelon slots. -/
structure ModelEchelonGroupV1 where
  flags : Nat
  modality : Nat
  echelons : List ModelEchelon
deriving DecidableEq, Repr

/-- Bit 0 of an echelon's flags: the slot is occupied by an initialized
echelon. -/
def echelonIsInit (e : ModelEchelon) : Bool := e.flags % 2 == 1

/-- Modelled from the spec: administrative append of an echelon.  The
account has a fixed array of `MAX_ECHELONS_PER_MODEL_GROUP_V1` slots;
appending fills the first uninitialized slot, and fails with
`EchelonCapacityExceeded` when every slot is already occupied. -/
def addEchelon (g : ModelEchelonGroupV1) (e : ModelEchelon) :
    Except AllocError ModelEchelonGroupV1 :=
  match findIdxB (fun ech => !echelonIsInit ech) g.echelons with
  | some i => .ok { g with echelons := g.echelons.set i e }
  | none => .error .EchelonCapacityExceeded

/-- Claim C9: the fixed capacities.  An echelon group holds at most 16
echelons: the constant is 16, appending never grows the fixed array, and an
administrative append onto a group whose 16 slots are all occupied fails
with `EchelonCapacityExceeded`.  An identifier range set holds at most 64
ranges: the constant is 64 and every reachable state has exactly 64 slots
in its fixed array. -/
theorem claim_C9_fixed_capacities :
    MAX_ECHELONS_PER_MODEL_GROUP_V1 = 16 ∧ MAX_ECHELON_RANGES = 64 ∧
    (∀ g e g', addEchelon g e = .ok g' →
      g'.echelons.length = g.echelons.length) ∧
    (∀ g e, g.echelons.length = MAX_ECHELONS_PER_MODEL_GROUP_V1 →
      (∀ ech, ech ∈ g.echelons → echelonIsInit ech = true) →
      addEchelon g e = .error .EchelonCapacityExceeded) ∧
    (∀ s, ReachableRanges s → s.ranges.length = MAX_ECHELON_RANGES) := by
  refine ⟨rfl, rfl, ?_, ?_, ?_⟩
  · intro g e g' h
    unfold addEchelon at h
    cases hf : findIdxB (fun ech => !echelonIsInit ech) g.echelons with
    | none => rw [hf] at h; exact absurd h (by simp)
    | some i =>
      rw [hf] at h
      have hg : g' = { g with echelons := g.echelons.set i e } := by
        simpa using h.symm
      subst hg
      simp
  · intro g e hlen hall
    unfold addEchelon
    have hany : g.echelons.any (fun ech => !echelonIsInit ech) = false := by
      rw [List.any_eq_false]
      intro ech hm
      rw [hall ech hm]
      simp
    rw [findIdxB_none_of_any_false _ _ hany]
  · intro s h
    exact (reachable_wf s h).hlen

/-- An occupied echelon slot for the C9 witness. -/
def demoEchelon : ModelEchelon :=
  { flags := 1, input_fee_per_token := 10, output_fee_per_token := 20,
    relative_performance := 100, settlement_timeout_slots := 50,
    ranges := initRanges }

/-- A group whose 16 slots are all occupied. -/
def demoFullGroup : ModelEchelonGroupV1 :=
  { flags := 1, modality := 0,
    echelons := List.replicate MAX_ECHELONS_PER_MODEL_GROUP_V1 demoEchelon }

/-- A group with a free slot (flags bit 0 clear in every slot). -/
def demoFreeGroup : ModelEchelonGroupV1 :=
  { flags := 1, modality := 0,
    echelons := List.replicate MAX_ECHELONS_PER_MODEL_GROUP_V1
      { demoEchelon with flags := 0 } }

/-- The free group after one successful administrative append. -/
def demoFreeGroupAfter : ModelEchelonGroupV1 :=
  { flags := 1, modality := 0,
    echelons := demoEchelon :: List.replicate
      (MAX_ECHELONS_PER_MODEL_GROUP_V1 - 1) { demoEchelon with flags := 0 } }

/-- Witness for C9: the constants, a successful append preserving the
16-slot array, the failing 17th append, and the 64-slot array of the
reachable state `demo4`. -/
theorem claim_C9_fixed_capacities_witness :
    MAX_ECHELONS_PER_MODEL_GROUP_V1 = 16 ∧ MAX_ECHELON_RANGES = 64 ∧
    demoFreeGroupAfter.echelons.length = demoFreeGroup.echelons.length ∧
    addEchelon demoFullGroup demoEchelon = .error .EchelonCapacityExceeded ∧
    demo4.ranges.length = MAX_ECHELON_RANGES :=
  ⟨claim_C9_fixed_capacities.1, claim_C9_fixed_capacities.2.1,
    claim_C9_fixed_capacities.2.2.1 demoFreeGroup demoEchelon
      demoFreeGroupAfter (by decide),
    claim_C9_fixed_capacities.2.2.2.1 demoFullGroup demoEchelon (by decide)
      (by decide),
    claim_C9_fixed_capacities.2.2.2.2 demo4 demo4_reachable⟩

/-- The instruction set of the on-chain atoma program: exactly one
instruction (the source's `#[program] pub mod atoma` contains only the
`initialize` entrypoint). -/
inductive AtomaInstruction where
  | initIx
deriving DecidableEq, Repr

/-- The accounts taken by the single instruction (`Initialize` in the
source): none. -/
structure InitCtx where
deriving DecidableEq, Repr

/-- Errors the atoma program can raise: none (the entrypoint's body is
`Ok(())`). -/
inductive AtomaIxError where

/-- Execution of one atoma-program instruction over an arbitrary ledger
state: the single instruction reads no accounts, changes nothing and
returns `Ok(())`, exactly as the source's entrypoint does. -/
def runAtomaIx {S : Type} (i : AtomaInstruction) (c : InitCtx) (st : S) :
    Except AtomaIxError (Unit × S) :=
  match i with
  | .initIx => .ok ((), st)

/-- Claim C10: the on-chain atoma program exposes exactly one instruction,
which takes no accounts (all contexts are equal to the empty one), modifies
no state and returns Ok(()) on every invocation; no subscribe, unsubscribe,
remove, merge, or sample instruction exists. -/
theorem claim_C10_single_instruction :
    (∀ i : AtomaInstruction, i = AtomaInstruction.initIx) ∧
    (∀ c c' : InitCtx, c = c') ∧
    (∀ (S : Type) (i : AtomaInstruction) (c : InitCtx) (st : S),
      runAtomaIx i c st = .ok ((), st)) := by
  refine ⟨?_, ?_, ?_⟩
  · intro i
    cases i
    rfl
  · intro c c'
    cases c
    cases c'
    rfl
  · intro S i c st
    cases i
    rfl
